import Mathlib

/-
Shallow embedding of ScaleGen (src/scalegen.py): pattern helpers
(get_start_pitches, close_pattern), the Note value object, the Generator
wrapper around the external MIDI library, and the three note-sequence
builders.  Beat positions and tempos are modelled as rationals; Python
lists of ints as `List Int`.  A Python function that can raise is embedded
as `Except PyError _`.
-/

namespace ScaleGen

/-- Python exceptions observable from scalegen.py.  `valueError msg` is the
builtin ValueError (raised by `min` on an empty sequence and by the unknown
track-id branch of `Generator.add_note`); `assertionError` is the failed
`assert tick_upto >= tick_from` in `Note.__init__`; `indexError` is a failed
list subscript (`pattern[2]` / `pattern[4]` in the triad-opener builder).
The spec additionally names two error classes of its own, InvalidPatternError
and UnknownTrackError.  Modelled from the spec: the constructors
`invalidPatternError` and `unknownTrackError` stand for those spec-named
classes; the source defines no such classes, so no embedded function ever
produces them. -/
inductive PyError where
  | valueError (msg : String)
  | assertionError
  | indexError
  | invalidPatternError
  | unknownTrackError
  deriving DecidableEq, Repr

abbrev Pattern := List Int

/-- Python `min(x :: xs)`: fold `min` over the list starting from its head. -/
def list_min (x : Int) (xs : List Int) : Int := xs.foldl min x

/-- Python `max(x :: xs)`: fold `max` over the list starting from its head. -/
def list_max (x : Int) (xs : List Int) : Int := xs.foldl max x

/-- The `n` consecutive integers starting at `lo`. -/
def rangeAux (lo : Int) : ℕ → List Int
  | 0 => []
  | n + 1 => lo :: rangeAux (lo + 1) n

/-- Python `list(range(lo, hi))`: the integers `lo, lo+1, ..., hi-1`
(empty when `hi ≤ lo`). -/
def rangeList (lo hi : Int) : List Int :=
  rangeAux lo (hi - lo).toNat

/-- Embedding of `get_start_pitches(pattern, low, high, cycle_up_down)`
(src/scalegen.py lines 20-32).  On an empty pattern, Python's `min` raises
`ValueError("min() arg is an empty sequence")`. -/
def get_start_pitches (pattern : Pattern) (low high : Int) (cycle_up_down : Bool) :
    Except PyError (List Int) :=
  match pattern with
  | [] => .error (.valueError "min() arg is an empty sequence")
  | d :: ds =>
    let min_delta := list_min d ds
    let max_delta := list_max d ds
    let lowest := low - min_delta
    let highest := high - max_delta
    if !cycle_up_down then
      .ok (rangeList lowest (highest + 1))
    else
      .ok (rangeList lowest (highest + 1) ++ (rangeList lowest highest).reverse)

/-- Embedding of `close_pattern(pattern) = pattern + pattern[-2::-1]`
(src/scalegen.py lines 35-36).  The Python slice `pattern[-2::-1]` walks from
the second-to-last element down to the first, i.e. it is the reversal of the
list with its last element dropped; on lists of length below 2 the slice is
empty. -/
def close_pattern (pattern : Pattern) : Pattern :=
  pattern ++ pattern.dropLast.reverse


/-- Embedding of the `Note` value object (src/scalegen.py lines 78-86):
beat-relative start/end, pitch and velocity.  The constructor's
`assert tick_upto >= tick_from` is modelled by `mkNote` below. -/
structure Note where
  tick_from : ℚ
  tick_upto : ℚ
  pitch : Int
  velocity : Int
  deriving DecidableEq, Repr

/-- `Note.__init__` including its assertion (line 86): construction fails with
an AssertionError unless `tick_upto >= tick_from`.  The Python default for
`velocity` is 100; the embedding passes it explicitly. -/
def mkNote (tick_from tick_upto : ℚ) (pitch velocity : Int) : Except PyError Note :=
  if tick_from ≤ tick_upto then .ok ⟨tick_from, tick_upto, pitch, velocity⟩
  else .error .assertionError

/-- The event appended to a pretty_midi instrument: `pretty_midi.Note` as built
in `Generator.add_note` (lines 109-114).  The source field `end` is a Lean
keyword, so it is called `stop` here. -/
structure PrettyNote where
  velocity : Int
  pitch : Int
  start : ℚ
  stop : ℚ
  deriving DecidableEq, Repr

/-- Embedding of the `Generator` wrapper (lines 92-120): the tempo and the two
instrument tracks, each an insertion-ordered list of emitted events.  The
instrument program (Acoustic Grand Piano, identical for both tracks) carries no
logic and is omitted. -/
structure Generator where
  bpm : ℚ
  data_fg : List PrettyNote
  data_bg : List PrettyNote
  deriving DecidableEq, Repr

/-- `Generator._beat_to_abs_time` (lines 102-103), with the leading underscore
dropped. -/
def Generator.beat_to_abs_time (g : Generator) (beat : ℚ) : ℚ :=
  beat * 60 / g.bpm

/-- The `pretty_midi.Note(velocity=100, pitch=..., start=..., end=...)` value
built inside `Generator.add_note` (lines 109-114). -/
def Generator.to_pretty_note (g : Generator) (note : Note) : PrettyNote :=
  ⟨100, note.pitch, g.beat_to_abs_time note.tick_from, g.beat_to_abs_time note.tick_upto⟩

/-- Embedding of `Generator.add_note` (lines 105-120).  The source annotates
`track_id` as `Literal["fg", "bg"]` but checks it at runtime; it is a `String`
here so that the unknown-track branch (`raise ValueError("Unknown track ID.")`)
is part of the model. -/
def Generator.add_note (g : Generator) (track_id : String) (note : Note) :
    Except PyError Generator :=
  let pretty_note := g.to_pretty_note note
  if track_id = "fg" then .ok ⟨g.bpm, g.data_fg ++ [pretty_note], g.data_bg⟩
  else if track_id = "bg" then .ok ⟨g.bpm, g.data_fg, g.data_bg ++ [pretty_note]⟩
  else .error (.valueError "Unknown track ID.")

/-- An `add_note(track_id, note)` call recorded by a builder: the builders
below are embedded as the sequence of such calls they make, in call order.
The `Generator` they populate is recovered by folding `Generator.add_note`
over this list. -/
abbrev Event := String × Note

/-- The inner loop shared by all three builders (e.g. lines 178-180):
`for delta in pattern: add_note("fg", Note(pos, pos + note_length,
start_pitch + delta)); pos += note_length`.  Returns the emitted events and
the final cursor. -/
def patternWalk (start_pitch : Int) (note_length : ℚ) :
    Pattern → ℚ → List Event × ℚ
  | [], pos => ([], pos)
  | delta :: rest, pos =>
    let w := patternWalk start_pitch note_length rest (pos + note_length)
    (("fg", ⟨pos, pos + note_length, start_pitch + delta, 100⟩) :: w.1, w.2)

/-- The per-start-pitch loop shared by `generator_major_triad` (lines 152-158)
and `generator_major_scale` (lines 175-181): one drone note an octave below on
the background track, the pattern walk on the foreground track, then a
one-note-length break. -/
def genLoop (pattern : Pattern) (drone_length note_length : ℚ) :
    List Int → ℚ → List Event
  | [], _ => []
  | start_pitch :: rest, pos =>
    let w := patternWalk start_pitch note_length pattern pos
    ("bg", ⟨pos, pos + drone_length, start_pitch - 12, 100⟩) :: w.1
      ++ genLoop pattern drone_length note_length rest (w.2 + note_length)

/-- Embedding of `generator_major_triad` (lines 140-160), as the list of
`add_note` calls it makes. -/
def generator_major_triad (low high : Int) : Except PyError (List Event) :=
  let note_length : ℚ := 1
  let pattern : Pattern := [0, 4, 7, 12, 7, 4, 0]
  match get_start_pitches pattern low high true with
  | .error e => .error e
  | .ok start_pitches =>
    .ok (genLoop pattern (note_length * 8) note_length start_pitches 0)

/-- Embedding of `generator_major_scale` (lines 163-183), as the list of
`add_note` calls it makes. -/
def generator_major_scale (low high : Int) : Except PyError (List Event) :=
  let note_length : ℚ := 1
  let pattern : Pattern := [0, 2, 4, 5, 7, 9, 11, 12, 11, 9, 7, 5, 4, 2, 0]
  match get_start_pitches pattern low high true with
  | .error e => .error e
  | .ok start_pitches =>
    .ok (genLoop pattern (note_length * 16) note_length start_pitches 0)

/-- The per-start-pitch loop of `generator_scale_with_triad_opener`
(lines 209-225): the single opener note, the three triad notes sharing one
beat window (the subscripts `pattern[2]` and `pattern[4]` raise IndexError
when the pattern is too short), the main pattern walk, and the break. -/
def triadLoop (pattern : Pattern) (note_length : ℚ) :
    List Int → ℚ → Except PyError (List Event)
  | [], _ => .ok []
  | start_pitch :: rest, pos =>
    match pattern[2]?, pattern[4]? with
    | some p2, some p4 =>
      let opener : List Event :=
        [("fg", ⟨pos, pos + note_length, start_pitch, 100⟩),
         ("fg", ⟨pos + note_length, pos + note_length + note_length, start_pitch, 100⟩),
         ("fg", ⟨pos + note_length, pos + note_length + note_length, start_pitch + p2, 100⟩),
         ("fg", ⟨pos + note_length, pos + note_length + note_length, start_pitch + p4, 100⟩)]
      let w := patternWalk start_pitch note_length pattern (pos + note_length + note_length)
      match triadLoop pattern note_length rest (w.2 + note_length) with
      | .error e => .error e
      | .ok tail => .ok (opener ++ w.1 ++ tail)
    | _, _ => .error .indexError

/-- Embedding of `generator_scale_with_triad_opener` (lines 186-227), as the
list of `add_note` calls it makes.  The `print` statements carry no logic and
are omitted. -/
def generator_scale_with_triad_opener (pattern0 : Pattern) (low high : Int)
    (do_close_pattern : Bool) : Except PyError (List Event) :=
  let pattern := if do_close_pattern then close_pattern pattern0 else pattern0
  let note_length : ℚ := 1
  match get_start_pitches pattern low high true with
  | .error e => .error e
  | .ok start_pitches => triadLoop pattern note_length start_pitches 0

/-- The foreground (melody) notes of an event list, in emission order. -/
def fgNotes (evs : List Event) : List Note :=
  (evs.filter (fun ev => ev.1 == "fg")).map Prod.snd

/-- Spec-side description of the main pattern walk (spec section 4.3): one
melody note per delta, each consuming one note length (here the builders'
fixed note length 1) and advancing the cursor by it. -/
def walkSpec (start_pitch : Int) : ℚ → Pattern → List Event
  | _, [] => []
  | pos, delta :: rest =>
    ("fg", ⟨pos, pos + 1, start_pitch + delta, 100⟩) :: walkSpec start_pitch (pos + 1) rest

/-- Spec-side description of one start-pitch block of the triad-opener
variant (spec section 4.3): first one single melody note at the start pitch,
then a 3-note triad — three melody notes sharing the same one-beat window,
with pitches `start_pitch`, `start_pitch + pattern[2]` and
`start_pitch + pattern[4]` — the single note and the triad each consuming one
note-length step, then the main pattern walk.  The trailing one-note-length
break appears as the gap before the next block. -/
def triadBlock (pattern : Pattern) (start_pitch : Int) (pos : ℚ) : List Event :=
  ("fg", ⟨pos, pos + 1, start_pitch, 100⟩)
    :: ("fg", ⟨pos + 1, pos + 2, start_pitch, 100⟩)
    :: ("fg", ⟨pos + 1, pos + 2, start_pitch + pattern.getD 2 0, 100⟩)
    :: ("fg", ⟨pos + 1, pos + 2, start_pitch + pattern.getD 4 0, 100⟩)
    :: walkSpec start_pitch (pos + 2) pattern

/-- Spec-side description of the whole triad-opener emission: one
`triadBlock` per start pitch, each block starting one note length (the
break) after the previous block's last note ends, i.e. `pattern.length + 3`
beats apart. -/
def triadBlocksSpec (pattern : Pattern) : List Int → ℚ → List Event
  | [], _ => []
  | start_pitch :: rest, pos =>
    triadBlock pattern start_pitch pos
      ++ triadBlocksSpec pattern rest (pos + pattern.length + 3)

section RangeLemmas

lemma mem_rangeAux {p : Int} : ∀ (n : ℕ) (lo : Int), p ∈ rangeAux lo n ↔ lo ≤ p ∧ p < lo + n := by
  intro n
  induction n with
  | zero => intro lo; simp [rangeAux]
  | succ m ih =>
    intro lo
    simp only [rangeAux, List.mem_cons, ih (lo + 1)]
    omega

lemma mem_rangeList {lo hi p : Int} : p ∈ rangeList lo hi ↔ lo ≤ p ∧ p < hi := by
  rw [rangeList, mem_rangeAux]
  omega

lemma chain'_rangeAux : ∀ (n : ℕ) (lo : Int),
    List.Chain' (fun a b => b = a + 1) (rangeAux lo n) := by
  intro n
  induction n with
  | zero => intro lo; simp [rangeAux]
  | succ m ih =>
    intro lo
    rw [rangeAux, List.chain'_cons']
    refine ⟨?_, ih (lo + 1)⟩
    intro y hy
    cases m with
    | zero => simp [rangeAux] at hy
    | succ k =>
      simp only [rangeAux, List.head?_cons, Option.mem_def, Option.some.injEq] at hy
      omega

lemma chain'_rangeList (lo hi : Int) :
    List.Chain' (fun a b => b = a + 1) (rangeList lo hi) :=
  chain'_rangeAux _ _

lemma dropLast_rangeAux : ∀ (n : ℕ) (lo : Int),
    (rangeAux lo (n + 1)).dropLast = rangeAux lo n := by
  intro n
  induction n with
  | zero => intro lo; simp [rangeAux]
  | succ m ih =>
    intro lo
    have hcons : rangeAux (lo + 1) (m + 1) = (lo + 1) :: rangeAux (lo + 1 + 1) m := rfl
    rw [rangeAux, hcons, List.dropLast_cons₂, ← hcons, ih (lo + 1)]
    rfl

lemma dropLast_rangeList (lo hi : Int) :
    (rangeList lo (hi + 1)).dropLast = rangeList lo hi := by
  unfold rangeList
  rcases hn : (hi + 1 - lo).toNat with _ | n
  · have h0 : (hi - lo).toNat = 0 := by omega
    simp [hn, h0, rangeAux]
  · have hn' : (hi - lo).toNat = n := by omega
    rw [hn', dropLast_rangeAux]

end RangeLemmas

section MinMaxLemmas

lemma list_min_cons (x b : Int) (t : List Int) :
    list_min x (b :: t) = list_min (min x b) t := rfl

lemma list_max_cons (x b : Int) (t : List Int) :
    list_max x (b :: t) = list_max (max x b) t := rfl

lemma list_min_le (x : Int) (xs : List Int) : ∀ y ∈ x :: xs, list_min x xs ≤ y := by
  induction xs generalizing x with
  | nil =>
    intro y hy
    simp only [List.mem_singleton] at hy
    simp [list_min, hy]
  | cons b t ih =>
    intro y hy
    rw [list_min_cons]
    rcases List.mem_cons.mp hy with h | h
    · have h1 := ih (min x b) (min x b) (List.mem_cons_self _ _)
      have h2 : min x b ≤ x := min_le_left _ _
      omega
    · rcases List.mem_cons.mp h with h' | h'
      · have h1 := ih (min x b) (min x b) (List.mem_cons_self _ _)
        have h2 : min x b ≤ b := min_le_right _ _
        omega
      · exact ih (min x b) y (List.mem_cons_of_mem _ h')

lemma le_list_max (x : Int) (xs : List Int) : ∀ y ∈ x :: xs, y ≤ list_max x xs := by
  induction xs generalizing x with
  | nil =>
    intro y hy
    simp only [List.mem_singleton] at hy
    simp [list_max, hy]
  | cons b t ih =>
    intro y hy
    rw [list_max_cons]
    rcases List.mem_cons.mp hy with h | h
    · have h1 := ih (max x b) (max x b) (List.mem_cons_self _ _)
      have h2 : x ≤ max x b := le_max_left _ _
      omega
    · rcases List.mem_cons.mp h with h' | h'
      · have h1 := ih (max x b) (max x b) (List.mem_cons_self _ _)
        have h2 : b ≤ max x b := le_max_right _ _
        omega
      · exact ih (max x b) y (List.mem_cons_of_mem _ h')

lemma list_min_mem (x : Int) (xs : List Int) : list_min x xs ∈ x :: xs := by
  induction xs generalizing x with
  | nil => simp [list_min]
  | cons b t ih =>
    rw [list_min_cons]
    rcases List.mem_cons.mp (ih (min x b)) with h | h
    · rcases min_choice x b with hc | hc <;> rw [h, hc]
      · exact List.mem_cons_self _ _
      · exact List.mem_cons_of_mem _ (List.mem_cons_self _ _)
    · exact List.mem_cons_of_mem _ (List.mem_cons_of_mem _ h)

lemma list_max_mem (x : Int) (xs : List Int) : list_max x xs ∈ x :: xs := by
  induction xs generalizing x with
  | nil => simp [list_max]
  | cons b t ih =>
    rw [list_max_cons]
    rcases List.mem_cons.mp (ih (max x b)) with h | h
    · rcases max_choice x b with hc | hc <;> rw [h, hc]
      · exact List.mem_cons_self _ _
      · exact List.mem_cons_of_mem _ (List.mem_cons_self _ _)
    · exact List.mem_cons_of_mem _ (List.mem_cons_of_mem _ h)

end MinMaxLemmas

section TestSuite

/- The checks of src/test_scalegen.py, evaluated on the embedding. -/

example : get_start_pitches [0, 1, 2] 20 22 false = .ok [20] := by rfl
example : get_start_pitches [0, 1, 2] 20 23 false = .ok [20, 21] := by rfl
example : get_start_pitches [0, 1, 2] 20 24 false = .ok [20, 21, 22] := by rfl
example : get_start_pitches [-1, 1] 20 22 false = .ok [21] := by rfl
example : get_start_pitches [2, 3] 20 22 false = .ok [18, 19] := by rfl
example : get_start_pitches [-2, -3] 20 22 false = .ok [23, 24] := by rfl
example : get_start_pitches [0, 1, 2] 20 22 true = .ok [20] := by rfl
example : get_start_pitches [0, 1, 2] 20 23 true = .ok [20, 21, 20] := by rfl
example : get_start_pitches [0, 1, 2] 20 24 true = .ok [20, 21, 22, 21, 20] := by rfl
example : close_pattern [0, 1, 2] = [0, 1, 2, 1, 0] := by decide

end TestSuite

lemma dropLast_reverse_of_short {l : List Int} (h : l.length < 2) :
    l.dropLast.reverse = [] := by
  match l with
  | [] => rfl
  | [_] => rfl
  | _ :: _ :: _ =>
    exfalso
    simp only [List.length_cons] at h
    omega

/-- C1: for a non-empty pattern, `get_start_pitches` with `cycle_up_down =
false` returns exactly the consecutive integers from `low - min(pattern)` up
to `high - max(pattern)` (empty when that interval is empty), and with
`cycle_up_down = true` it returns that ascending run followed by its
reversal with the turnaround element dropped, i.e. the descending run from
`highest - 1` down to `lowest` (empty when the ascending run has fewer than
two elements). -/
theorem get_start_pitches_enumeration (d : Int) (ds : List Int) (low high : Int) :
    ∃ asc : List Int,
      get_start_pitches (d :: ds) low high false = .ok asc ∧
      (∀ p : Int, p ∈ asc ↔ low - list_min d ds ≤ p ∧ p ≤ high - list_max d ds) ∧
      List.Chain' (fun a b => b = a + 1) asc ∧
      (high - list_max d ds < low - list_min d ds → asc = []) ∧
      (asc.length < 2 → asc.dropLast.reverse = []) ∧
      get_start_pitches (d :: ds) low high true = .ok (asc ++ asc.dropLast.reverse) := by
  refine ⟨rangeList (low - list_min d ds) (high - list_max d ds + 1),
    ?_, ?_, ?_, ?_, ?_, ?_⟩
  · simp [get_start_pitches]
  · intro p
    rw [mem_rangeList]
    omega
  · exact chain'_rangeList _ _
  · intro h
    refine List.eq_nil_iff_forall_not_mem.mpr (fun p hp => ?_)
    rw [mem_rangeList] at hp
    omega
  · exact fun h => dropLast_reverse_of_short h
  · simp only [get_start_pitches, Bool.not_true, if_neg]
    rw [dropLast_rangeList]
    simp

/-- Witness for C1 at the test-suite input `pattern = [0,1,2], low = 20,
high = 24`. -/
theorem get_start_pitches_enumeration_witness :
    ∃ asc : List Int,
      get_start_pitches [0, 1, 2] 20 24 false = .ok asc ∧
      (∀ p : Int, p ∈ asc ↔ 20 - list_min 0 [1, 2] ≤ p ∧ p ≤ 24 - list_max 0 [1, 2]) ∧
      List.Chain' (fun a b => b = a + 1) asc ∧
      (24 - list_max 0 [1, 2] < 20 - list_min 0 [1, 2] → asc = []) ∧
      (asc.length < 2 → asc.dropLast.reverse = []) ∧
      get_start_pitches [0, 1, 2] 20 24 true = .ok (asc ++ asc.dropLast.reverse) :=
  get_start_pitches_enumeration 0 [1, 2] 20 24

/-- C5: a pitch `p` is in the non-cycling start-pitch list exactly when every
note `p + delta` for `delta` in the pattern stays within `[low, high]`. -/
theorem start_pitch_valid_iff (d : Int) (ds : List Int) (low high p : Int) :
    ∃ l : List Int,
      get_start_pitches (d :: ds) low high false = .ok l ∧
      (p ∈ l ↔ ∀ delta ∈ d :: ds, low ≤ p + delta ∧ p + delta ≤ high) := by
  refine ⟨rangeList (low - list_min d ds) (high - list_max d ds + 1), ?_, ?_⟩
  · simp [get_start_pitches]
  · rw [mem_rangeList]
    constructor
    · rintro ⟨h1, h2⟩ delta hdelta
      have hmin := list_min_le d ds delta hdelta
      have hmax := le_list_max d ds delta hdelta
      omega
    · intro h
      have h1 := h (list_min d ds) (list_min_mem d ds)
      have h2 := h (list_max d ds) (list_max_mem d ds)
      omega

/-- Witness for C5 at `pattern = [0,1,2], low = 20, high = 24, p = 21`. -/
theorem start_pitch_valid_iff_witness :
    ∃ l : List Int,
      get_start_pitches [0, 1, 2] 20 24 false = .ok l ∧
      (21 ∈ l ↔ ∀ delta ∈ [0, 1, 2], (20 : Int) ≤ 21 + delta ∧ 21 + delta ≤ 24) :=
  start_pitch_valid_iff 0 [1, 2] 20 24 21

lemma getElem?_dropLast_of_lt {α : Type} (l : List α) (j : ℕ) (h : j < l.length - 1) :
    l.dropLast[j]? = l[j]? := by
  induction l generalizing j with
  | nil => simp at h
  | cons a t ih =>
    cases t with
    | nil => simp at h
    | cons b t2 =>
      cases j with
      | zero => simp [List.dropLast_cons₂]
      | succ m =>
        have hm : m < (b :: t2).length - 1 := by
          simp only [List.length_cons] at h ⊢
          omega
        have hih := ih m hm
        simpa using hih

/-- C2: for a pattern `[p0, ..., pn]` with at least 2 elements, `close_pattern`
returns `[p0, ..., pn, p(n-1), ..., p1, p0]`: the result keeps the pattern as
its prefix, has length `2 * length - 1`, and its element at position
`(length - 1) + k` is the pattern's element at position `(length - 1) - k`. -/
theorem close_pattern_palindrome (pattern : Pattern) (h2 : 2 ≤ pattern.length) :
    (close_pattern pattern).length = 2 * pattern.length - 1 ∧
    (∀ i : ℕ, i < pattern.length → (close_pattern pattern)[i]? = pattern[i]?) ∧
    (∀ k : ℕ, k ≤ pattern.length - 1 →
      (close_pattern pattern)[pattern.length - 1 + k]? =
        pattern[pattern.length - 1 - k]?) := by
  refine ⟨?_, ?_, ?_⟩
  · simp only [close_pattern, List.length_append, List.length_reverse,
      List.length_dropLast]
    omega
  · intro i hi
    rw [close_pattern, List.getElem?_append, if_pos hi]
  · intro k hk
    rcases Nat.eq_zero_or_pos k with rfl | hkpos
    · rw [close_pattern, List.getElem?_append, if_pos (by omega)]
      simp
    · rw [close_pattern, List.getElem?_append, if_neg (by omega)]
      have hidx : pattern.length - 1 + k - pattern.length = k - 1 := by omega
      rw [hidx]
      rw [List.getElem?_reverse (by rw [List.length_dropLast]; omega)]
      rw [List.length_dropLast]
      have hidx2 : pattern.length - 1 - 1 - (k - 1) = pattern.length - 1 - k := by
        omega
      rw [hidx2]
      exact getElem?_dropLast_of_lt pattern _ (by omega)

/-- Witness for C2 at the test-suite input `[0, 1, 2]`. -/
theorem close_pattern_palindrome_witness :
    (close_pattern [0, 1, 2]).length = 2 * ([0, 1, 2] : Pattern).length - 1 ∧
    (∀ i : ℕ, i < ([0, 1, 2] : Pattern).length →
      (close_pattern [0, 1, 2])[i]? = ([0, 1, 2] : Pattern)[i]?) ∧
    (∀ k : ℕ, k ≤ ([0, 1, 2] : Pattern).length - 1 →
      (close_pattern [0, 1, 2])[([0, 1, 2] : Pattern).length - 1 + k]? =
        ([0, 1, 2] : Pattern)[([0, 1, 2] : Pattern).length - 1 - k]?) :=
  close_pattern_palindrome [0, 1, 2] (by decide)

/-- C7 counterexample: `close_pattern` does not fail on patterns with fewer
than 2 elements — the source function is a total slice-and-concatenate
expression with no raise and no InvalidPatternError class exists — instead it
returns the empty and one-element pattern unchanged. -/
theorem close_pattern_short_counterexample :
    close_pattern ([] : Pattern) = [] ∧ close_pattern [5] = [5] := by
  constructor <;> rfl

/-- C7 amended: on a pattern with fewer than 2 elements, `close_pattern` does
not raise `InvalidPatternError` (the source defines no such class and performs
no length check); the mirrored slice `pattern[-2::-1]` is empty, so the
pattern is returned unchanged. -/
theorem close_pattern_short (pattern : Pattern) (h : pattern.length < 2) :
    close_pattern pattern = pattern := by
  rw [close_pattern, dropLast_reverse_of_short h, List.append_nil]

/-- Witness for the amended C7 at the empty pattern. -/
theorem close_pattern_short_witness :
    ([] : Pattern).length < 2 ∧ close_pattern ([] : Pattern) = [] :=
  ⟨by decide, close_pattern_short [] (by decide)⟩

/-- C8 counterexample: on the empty pattern, `get_start_pitches` fails with
the builtin `ValueError` raised by Python's `min`, which is not the
`InvalidPatternError` named by the spec (the source defines no such class). -/
theorem get_start_pitches_empty_error_class :
    get_start_pitches [] 0 0 false =
      .error (.valueError "min() arg is an empty sequence") ∧
    PyError.valueError "min() arg is an empty sequence" ≠
      PyError.invalidPatternError := by
  refine ⟨rfl, ?_⟩
  intro h
  cases h

/-- C8 amended: `get_start_pitches` fails whenever its pattern is empty — with
the builtin `ValueError` from `min` on an empty sequence rather than a
dedicated `InvalidPatternError` class, which the source does not define — and
succeeds on every non-empty pattern. -/
theorem get_start_pitches_empty_fails (low high : Int) (cycle_up_down : Bool) :
    get_start_pitches [] low high cycle_up_down =
      .error (.valueError "min() arg is an empty sequence") ∧
    (∀ (d : Int) (ds : List Int),
      ∃ l, get_start_pitches (d :: ds) low high cycle_up_down = .ok l) := by
  refine ⟨rfl, fun d ds => ?_⟩
  cases cycle_up_down <;> exact ⟨_, rfl⟩

/-- C9 counterexample: requesting an unknown track raises the builtin
`ValueError("Unknown track ID.")`, which is not the `UnknownTrackError` named
by the spec (the source defines no such class). -/
theorem add_note_unknown_track_error_class :
    Generator.add_note ⟨120, [], []⟩ "drums" ⟨0, 1, 60, 100⟩ =
      .error (.valueError "Unknown track ID.") ∧
    PyError.valueError "Unknown track ID." ≠ PyError.unknownTrackError := by
  refine ⟨rfl, ?_⟩
  intro h
  cases h

/-- C9 amended: `add_note` succeeds exactly when the track id is `"fg"`
(melody) or `"bg"` (drone); for every other id it raises the builtin
`ValueError("Unknown track ID.")` — not an `UnknownTrackError` class, which
the source does not define. -/
theorem add_note_track_check (g : Generator) (note : Note) (track_id : String) :
    ((track_id = "fg" ∨ track_id = "bg") ↔
      ∃ g', g.add_note track_id note = .ok g') ∧
    (track_id ≠ "fg" → track_id ≠ "bg" →
      g.add_note track_id note = .error (.valueError "Unknown track ID.")) := by
  by_cases h1 : track_id = "fg"
  · subst h1
    simp [Generator.add_note]
  · by_cases h2 : track_id = "bg"
    · subst h2
      simp [Generator.add_note]
    · simp [Generator.add_note, h1, h2]

/-- Witness for the amended C9 at a concrete generator, note and the melody
track id. -/
theorem add_note_track_check_witness :
    ((("fg" : String) = "fg" ∨ ("fg" : String) = "bg") ↔
      ∃ g', Generator.add_note ⟨120, [], []⟩ "fg" ⟨0, 1, 60, 100⟩ = .ok g') ∧
    (("fg" : String) ≠ "fg" → ("fg" : String) ≠ "bg" →
      Generator.add_note ⟨120, [], []⟩ "fg" ⟨0, 1, 60, 100⟩ =
        .error (.valueError "Unknown track ID.")) :=
  add_note_track_check ⟨120, [], []⟩ ⟨0, 1, 60, 100⟩ "fg"

/-- C6: the beat-to-absolute-time conversion is `beat * 60 / bpm`, and for a
positive tempo it is strictly monotone in the beat argument. -/
theorem beat_to_abs_time_formula_and_monotone (g : Generator) (hbpm : 0 < g.bpm) :
    (∀ beat : ℚ, g.beat_to_abs_time beat = beat * 60 / g.bpm) ∧
    (∀ beat1 beat2 : ℚ, beat1 < beat2 →
      g.beat_to_abs_time beat1 < g.beat_to_abs_time beat2) := by
  refine ⟨fun _ => rfl, fun b1 b2 hb => ?_⟩
  unfold Generator.beat_to_abs_time
  have h60 : b1 * 60 < b2 * 60 := by linarith
  exact (div_lt_div_iff_of_pos_right hbpm).mpr h60

/-- Witness for C6 at `bpm = 120` and beats `1 < 2`. -/
theorem beat_to_abs_time_formula_and_monotone_witness :
    (0 : ℚ) < 120 ∧
    (Generator.mk 120 [] []).beat_to_abs_time 1 <
      (Generator.mk 120 [] []).beat_to_abs_time 2 :=
  ⟨by norm_num,
   (beat_to_abs_time_formula_and_monotone ⟨120, [], []⟩ (by norm_num)).2 1 2
     (by norm_num)⟩

/-- C10: whatever velocity (in `[0, 127]`) a `Note` was constructed with, the
event `add_note` emits carries the constant velocity 100; the emitted event is
appended to the requested track and is exactly `to_pretty_note`, whose
velocity field is the literal 100 from the source. -/
theorem add_note_velocity_constant (g : Generator) (note : Note) (track_id : String)
    (h0 : 0 ≤ note.velocity) (h127 : note.velocity ≤ 127) :
    (g.to_pretty_note note).velocity = 100 ∧
    (∀ g', g.add_note track_id note = .ok g' →
      (g'.data_fg = g.data_fg ++ [g.to_pretty_note note] ∧ g'.data_bg = g.data_bg) ∨
      (g'.data_bg = g.data_bg ++ [g.to_pretty_note note] ∧ g'.data_fg = g.data_fg)) := by
  refine ⟨rfl, fun g' hok => ?_⟩
  simp only [Generator.add_note] at hok
  split_ifs at hok with h1 h2
  · left
    cases hok
    exact ⟨rfl, rfl⟩
  · right
    cases hok
    exact ⟨rfl, rfl⟩

/-- Witness for C10: a note constructed with velocity 64 is emitted with
velocity 100. -/
theorem add_note_velocity_constant_witness :
    ((⟨120, [], []⟩ : Generator).to_pretty_note ⟨0, 1, 60, 64⟩).velocity = 100 ∧
    (∀ g', Generator.add_note ⟨120, [], []⟩ "fg" ⟨0, 1, 60, 64⟩ = .ok g' →
      (g'.data_fg = ([] : List PrettyNote) ++
          [(⟨120, [], []⟩ : Generator).to_pretty_note ⟨0, 1, 60, 64⟩] ∧
        g'.data_bg = ([] : List PrettyNote)) ∨
      (g'.data_bg = ([] : List PrettyNote) ++
          [(⟨120, [], []⟩ : Generator).to_pretty_note ⟨0, 1, 60, 64⟩] ∧
        g'.data_fg = ([] : List PrettyNote))) :=
  add_note_velocity_constant ⟨120, [], []⟩ ⟨0, 1, 60, 64⟩ "fg" (by decide) (by decide)

section TriadOpener

lemma patternWalk_snd (sp : Int) (L : ℚ) (pat : Pattern) :
    ∀ pos : ℚ, (patternWalk sp L pat pos).2 = pos + pat.length * L := by
  induction pat with
  | nil => intro pos; simp [patternWalk]
  | cons delta rest ih =>
    intro pos
    simp only [patternWalk]
    rw [ih (pos + L)]
    push_cast [List.length_cons]
    ring

lemma patternWalk_fst (sp : Int) (pat : Pattern) :
    ∀ pos : ℚ, (patternWalk sp 1 pat pos).1 = walkSpec sp pos pat := by
  induction pat with
  | nil => intro pos; rfl
  | cons delta rest ih =>
    intro pos
    simp only [patternWalk, walkSpec]
    rw [ih (pos + 1)]

lemma triadLoop_closed (pat : Pattern) (h5 : 4 < pat.length) :
    ∀ (sps : List Int) (pos : ℚ),
      triadLoop pat 1 sps pos = .ok (triadBlocksSpec pat sps pos) := by
  have hp2 : pat[2]? = some (pat.getD 2 0) := by
    rw [List.getElem?_eq_getElem (show 2 < pat.length by omega),
      List.getD_eq_getElem?_getD,
      List.getElem?_eq_getElem (show 2 < pat.length by omega)]
    rfl
  have hp4 : pat[4]? = some (pat.getD 4 0) := by
    rw [List.getElem?_eq_getElem (show 4 < pat.length by omega),
      List.getD_eq_getElem?_getD,
      List.getElem?_eq_getElem (show 4 < pat.length by omega)]
    rfl
  intro sps
  induction sps with
  | nil => intro pos; rfl
  | cons sp rest ih =>
    intro pos
    rw [triadLoop.eq_def]
    simp only [hp2, hp4]
    rw [ih ((patternWalk sp 1 pat (pos + 1 + 1)).2 + 1)]
    rw [patternWalk_snd, patternWalk_fst]
    have e1 : pos + 1 + 1 = pos + 2 := by ring
    rw [e1]
    have e2 : pos + 2 + (pat.length : ℚ) * 1 + 1 = pos + pat.length + 3 := by ring
    rw [e2]
    simp [triadBlocksSpec, triadBlock, List.append_assoc]

/-- C3: for each start pitch, the triad-opener builder first emits one melody
note at the start pitch, then three melody notes sharing the next one-beat
window with pitches `start_pitch`, `start_pitch + pattern[2]` and
`start_pitch + pattern[4]` (the single note and the triad each consuming one
note-length step), then the main pattern walk with one note per delta, each
advancing the cursor by one note length, and then a one-note-length break —
successive blocks sit `pattern.length + 3` beats apart.  Stated through the
spec-side descriptions `triadBlock` / `triadBlocksSpec`. -/
theorem triad_opener_emission (pattern0 pattern : Pattern) (low high : Int)
    (dc : Bool)
    (hpat : pattern = if dc then close_pattern pattern0 else pattern0)
    (h5 : 4 < pattern.length) :
    ∃ sps : List Int,
      get_start_pitches pattern low high true = .ok sps ∧
      generator_scale_with_triad_opener pattern0 low high dc =
        .ok (triadBlocksSpec pattern sps 0) := by
  have hgen : generator_scale_with_triad_opener pattern0 low high dc =
      (match get_start_pitches pattern low high true with
       | .error e => .error e
       | .ok start_pitches => triadLoop pattern 1 start_pitches 0) := by
    rw [generator_scale_with_triad_opener]
    rw [← hpat]
  clear hpat
  rcases pattern with _ | ⟨d, ds⟩
  · exact absurd h5 (by simp)
  · refine ⟨rangeList (low - list_min d ds) (high - list_max d ds + 1) ++
      (rangeList (low - list_min d ds) (high - list_max d ds)).reverse, ?_, ?_⟩
    · rfl
    · rw [hgen]
      exact triadLoop_closed (d :: ds) h5 _ 0

/-- Witness for C3 at `pattern0 = [0,1,2]` (closed to `[0,1,2,1,0]`),
`low = 20`, `high = 21`. -/
theorem triad_opener_emission_witness :
    ∃ sps : List Int,
      get_start_pitches [0, 1, 2, 1, 0] 20 21 true = .ok sps ∧
      generator_scale_with_triad_opener [0, 1, 2] 20 21 true =
        .ok (triadBlocksSpec [0, 1, 2, 1, 0] sps 0) :=
  triad_opener_emission [0, 1, 2] [0, 1, 2, 1, 0] 20 21 true (by decide) (by decide)

end TriadOpener

section Monotonicity

lemma pos_le_patternWalk_snd (sp : Int) (L : ℚ) (hL : 0 ≤ L) (pat : Pattern)
    (pos : ℚ) : pos ≤ (patternWalk sp L pat pos).2 := by
  rw [patternWalk_snd]
  have hcast : 0 ≤ (pat.length : ℚ) * L :=
    mul_nonneg (by positivity) hL
  linarith

lemma patternWalk_sound (sp : Int) (L : ℚ) (hL : 0 ≤ L) (pat : Pattern) :
    ∀ pos : ℚ,
      (∀ ev ∈ (patternWalk sp L pat pos).1,
        pos ≤ ev.2.tick_from ∧ ev.2.tick_from ≤ ev.2.tick_upto ∧
        ev.2.tick_from ≤ (patternWalk sp L pat pos).2) ∧
      (patternWalk sp L pat pos).1.Pairwise
        (fun a b => a.2.tick_from ≤ b.2.tick_from) := by
  induction pat with
  | nil => intro pos; exact ⟨by simp [patternWalk], by simp [patternWalk]⟩
  | cons delta rest ih =>
    intro pos
    obtain ⟨ihmem, ihpw⟩ := ih (pos + L)
    have hsnd2 : pos + L ≤ (patternWalk sp L rest (pos + L)).2 :=
      pos_le_patternWalk_snd sp L hL rest (pos + L)
    constructor
    · intro ev hev
      simp only [patternWalk, List.mem_cons] at hev
      rcases hev with rfl | hev
      · dsimp only
        refine ⟨le_refl _, by linarith, ?_⟩
        simp only [patternWalk]
        linarith
      · obtain ⟨h1, h2, h3⟩ := ihmem ev hev
        refine ⟨by linarith, h2, ?_⟩
        simp only [patternWalk]
        exact h3
    · simp only [patternWalk]
      rw [List.pairwise_cons]
      refine ⟨fun b hb => ?_, ihpw⟩
      have hb1 := (ihmem b hb).1
      dsimp only
      linarith

lemma genLoop_sound (pat : Pattern) (dL L : ℚ) (hd : 0 ≤ dL) (hL : 0 ≤ L) :
    ∀ (sps : List Int) (pos : ℚ),
      (∀ ev ∈ genLoop pat dL L sps pos,
        pos ≤ ev.2.tick_from ∧ ev.2.tick_from ≤ ev.2.tick_upto) ∧
      (genLoop pat dL L sps pos).Pairwise
        (fun a b => a.2.tick_from ≤ b.2.tick_from) := by
  intro sps
  induction sps with
  | nil => intro pos; exact ⟨by simp [genLoop], by simp [genLoop]⟩
  | cons sp rest ih =>
    intro pos
    obtain ⟨ihmem, ihpw⟩ := ih ((patternWalk sp L pat pos).2 + L)
    obtain ⟨wmem, wpw⟩ := patternWalk_sound sp L hL pat pos
    have hpos2 : pos ≤ (patternWalk sp L pat pos).2 :=
      pos_le_patternWalk_snd sp L hL pat pos
    constructor
    · intro ev hev
      simp only [genLoop, List.cons_append, List.mem_cons, List.mem_append] at hev
      rcases hev with rfl | hev | hev
      · dsimp only
        exact ⟨le_refl _, by linarith⟩
      · obtain ⟨h1, h2, _⟩ := wmem ev hev
        exact ⟨h1, h2⟩
      · obtain ⟨h1, h2⟩ := ihmem ev hev
        exact ⟨by linarith, h2⟩
    · simp only [genLoop, List.cons_append]
      rw [List.pairwise_cons]
      constructor
      · intro b hb
        dsimp only
        rcases List.mem_append.mp hb with hb | hb
        · exact (wmem b hb).1
        · have hb1 := (ihmem b hb).1
          linarith
      · rw [List.pairwise_append]
        refine ⟨wpw, ihpw, fun a ha b hb => ?_⟩
        have ha3 := (wmem a ha).2.2
        have hb1 := (ihmem b hb).1
        linarith

lemma triadLoop_sound (pat : Pattern) (L : ℚ) (hL : 0 ≤ L) :
    ∀ (sps : List Int) (pos : ℚ) (evs : List Event),
      triadLoop pat L sps pos = .ok evs →
      (∀ ev ∈ evs, pos ≤ ev.2.tick_from ∧ ev.2.tick_from ≤ ev.2.tick_upto) ∧
      evs.Pairwise (fun a b => a.2.tick_from ≤ b.2.tick_from) := by
  intro sps
  induction sps with
  | nil =>
    intro pos evs hok
    simp only [triadLoop, Except.ok.injEq] at hok
    subst hok
    exact ⟨by simp, by simp⟩
  | cons sp rest ih =>
    intro pos evs hok
    simp only [triadLoop] at hok
    split at hok
    · split at hok
      · exact absurd hok (by simp)
      · rename_i p2 p4 hp24 tail heq
        simp only [Except.ok.injEq] at hok
        subst hok
        obtain ⟨wmem, wpw⟩ := patternWalk_sound sp L hL pat (pos + L + L)
        have hw2 : pos + L + L ≤ (patternWalk sp L pat (pos + L + L)).2 :=
          pos_le_patternWalk_snd sp L hL pat (pos + L + L)
        obtain ⟨tmem, tpw⟩ :=
          ih ((patternWalk sp L pat (pos + L + L)).2 + L) tail heq
        constructor
        · intro ev hev
          simp only [List.cons_append, List.nil_append, List.mem_cons,
            List.mem_append] at hev
          rcases hev with rfl | rfl | rfl | rfl | hev | hev
          · exact ⟨le_refl _, by dsimp only; linarith⟩
          · exact ⟨by dsimp only; linarith, by dsimp only; linarith⟩
          · exact ⟨by dsimp only; linarith, by dsimp only; linarith⟩
          · exact ⟨by dsimp only; linarith, by dsimp only; linarith⟩
          · obtain ⟨h1, h2, _⟩ := wmem ev hev
            exact ⟨by linarith, h2⟩
          · obtain ⟨h1, h2⟩ := tmem ev hev
            exact ⟨by linarith, h2⟩
        · simp only [List.cons_append, List.nil_append]
          have hrest : ∀ b ∈ (patternWalk sp L pat (pos + L + L)).1 ++ tail,
              pos + L ≤ b.2.tick_from := by
            intro b hb
            rcases List.mem_append.mp hb with hb | hb
            · have hb1 := (wmem b hb).1
              linarith
            · have hb1 := (tmem b hb).1
              linarith
          rw [List.pairwise_cons]
          refine ⟨?_, ?_⟩
          · intro b hb
            dsimp only
            simp only [List.mem_cons] at hb
            rcases hb with rfl | rfl | rfl | hb
            · dsimp only; linarith
            · dsimp only; linarith
            · dsimp only; linarith
            · have := hrest b hb
              linarith
          rw [List.pairwise_cons]
          refine ⟨?_, ?_⟩
          · intro b hb
            dsimp only
            simp only [List.mem_cons] at hb
            rcases hb with rfl | rfl | hb
            · dsimp only; linarith
            · dsimp only; linarith
            · exact hrest b hb
          rw [List.pairwise_cons]
          refine ⟨?_, ?_⟩
          · intro b hb
            dsimp only
            simp only [List.mem_cons] at hb
            rcases hb with rfl | hb
            · dsimp only; linarith
            · exact hrest b hb
          rw [List.pairwise_cons]
          refine ⟨fun b hb => hrest b hb, ?_⟩
          rw [List.pairwise_append]
          refine ⟨wpw, tpw, fun a ha b hb => ?_⟩
          have ha3 := (wmem a ha).2.2
          have hb1 := (tmem b hb).1
          linarith
    · exact absurd hok (by simp)

lemma events_conclusions (evs : List Event)
    (hmem : ∀ ev ∈ evs, (0 : ℚ) ≤ ev.2.tick_from ∧ ev.2.tick_from ≤ ev.2.tick_upto)
    (hpw : evs.Pairwise (fun a b => a.2.tick_from ≤ b.2.tick_from)) :
    (∀ ev ∈ evs, ev.2.tick_from ≤ ev.2.tick_upto) ∧
    (fgNotes evs).Pairwise (fun x y => x.tick_from ≤ y.tick_from) := by
  refine ⟨fun ev hev => (hmem ev hev).2, ?_⟩
  unfold fgNotes
  exact (hpw.filter _).map Prod.snd (fun a b h => h)

/-- C4: the `Note` constructor succeeds exactly when `end_beat ≥ start_beat`
and fails its assertion otherwise; every builder output consists of notes
with `tick_upto ≥ tick_from`, and the melody (foreground) notes of each
builder have non-decreasing `tick_from` in emission order. -/
theorem builders_monotone_and_valid :
    (∀ (a b : ℚ) (p v : Int), mkNote a b p v = .ok ⟨a, b, p, v⟩ ↔ a ≤ b) ∧
    (∀ (a b : ℚ) (p v : Int), b < a → mkNote a b p v = .error .assertionError) ∧
    (∀ (low high : Int) (evs : List Event),
      (generator_major_triad low high = .ok evs ∨
       generator_major_scale low high = .ok evs) →
      (∀ ev ∈ evs, ev.2.tick_from ≤ ev.2.tick_upto) ∧
      (fgNotes evs).Pairwise (fun x y => x.tick_from ≤ y.tick_from)) ∧
    (∀ (pattern0 : Pattern) (low high : Int) (dc : Bool) (evs : List Event),
      generator_scale_with_triad_opener pattern0 low high dc = .ok evs →
      (∀ ev ∈ evs, ev.2.tick_from ≤ ev.2.tick_upto) ∧
      (fgNotes evs).Pairwise (fun x y => x.tick_from ≤ y.tick_from)) := by
  refine ⟨?_, ?_, ?_, ?_⟩
  · intro a b p v
    constructor
    · intro h
      by_contra hab
      rw [mkNote, if_neg hab] at h
      exact absurd h (by simp)
    · intro h
      rw [mkNote, if_pos h]
  · intro a b p v h
    rw [mkNote, if_neg (by linarith)]
  · intro low high evs hok
    rcases hok with hok | hok
    · simp only [generator_major_triad, get_start_pitches, Bool.not_true,
        Bool.false_eq_true, if_false, Except.ok.injEq] at hok
      subst hok
      obtain ⟨hmem, hpw⟩ :=
        genLoop_sound [0, 4, 7, 12, 7, 4, 0] (1 * 8) 1 (by norm_num)
          (by norm_num) _ 0
      exact events_conclusions _ hmem hpw
    · simp only [generator_major_scale, get_start_pitches, Bool.not_true,
        Bool.false_eq_true, if_false, Except.ok.injEq] at hok
      subst hok
      obtain ⟨hmem, hpw⟩ :=
        genLoop_sound [0, 2, 4, 5, 7, 9, 11, 12, 11, 9, 7, 5, 4, 2, 0]
          (1 * 16) 1 (by norm_num) (by norm_num) _ 0
      exact events_conclusions _ hmem hpw
  · intro pattern0 low high dc evs hok
    simp only [generator_scale_with_triad_opener] at hok
    split at hok
    · exact absurd hok (by simp)
    · obtain ⟨hmem, hpw⟩ :=
        triadLoop_sound (if dc then close_pattern pattern0 else pattern0) 1
          (by norm_num) _ 0 evs hok
      exact events_conclusions _ hmem hpw

/-- Witness for C4: a reversed interval fails the constructor assertion, and
the triad-opener builder output at a range admitting no start pitch is the
empty, trivially monotone emission. -/
theorem builders_monotone_and_valid_witness :
    mkNote 2 1 5 100 = .error PyError.assertionError ∧
    ((∀ ev ∈ ([] : List Event), ev.2.tick_from ≤ ev.2.tick_upto) ∧
      (fgNotes []).Pairwise (fun x y => x.tick_from ≤ y.tick_from)) :=
  ⟨builders_monotone_and_valid.2.1 2 1 5 100 (by norm_num),
   builders_monotone_and_valid.2.2.2 [0, 1, 2] 20 20 true [] (by rfl)⟩

end Monotonicity

end ScaleGen
